import Mathlib

/-!
Verification of the `end-to-end-image-classifier` repository.

This file shallowly embeds the parts of the repository that the claims
C1-C10 are about, and proves (or refutes) each claim against the
embedding.  Machine reals (Python floats) are modelled as rationals,
Python ints as `Int`/`Nat`, exceptions as `Option`/`Except`, and the
external services (MLflow, W&B, the filesystem, torch) as explicit
oracles describing which calls succeed.
-/

namespace ImageClassifier

/-! ## `src/utils/metrics.py`: `AverageMeter` -/

/-- State of `AverageMeter` (`src/utils/metrics.py`, lines 155-181).
Python floats are modelled as `ℚ`, the `count`/`n` ints as `ℤ`. -/
structure AverageMeter where
  val : ℚ
  avg : ℚ
  sum : ℚ
  count : ℤ
deriving Repr, DecidableEq

namespace AverageMeter

/-- `AverageMeter.reset`: sets all statistics to zero.  `__init__` calls
this, so the freshly constructed meter has the same state. -/
def reset : AverageMeter := ⟨0, 0, 0, 0⟩

/-- `AverageMeter.update(val, n)`:
`self.val = val; self.sum += val * n; self.count += n;`
`self.avg = self.sum / self.count if self.count != 0 else 0`. -/
def update (m : AverageMeter) (v : ℚ) (n : ℤ) : AverageMeter :=
  let sum' := m.sum + v * n
  let count' := m.count + n
  { val := v
    sum := sum'
    count := count'
    avg := if count' ≠ 0 then sum' / count' else 0 }

/-- Folding a whole sequence of `update` calls, starting from a given state. -/
def runUpdates (m : AverageMeter) (us : List (ℚ × ℤ)) : AverageMeter :=
  us.foldl (fun s u => s.update u.1 u.2) m

end AverageMeter

/-! ## `src/training/train.py`: checkpoint contents (for C7) -/

/-- Opaque stand-ins for the runtime values stored in a checkpoint. -/
inductive CkptValue (StateDict OptState Config : Type) where
  | natV (n : ℕ)
  | ratV (q : ℚ)
  | stateDictV (sd : StateDict)
  | optStateV (o : OptState)
  | configV (c : Config)
deriving DecidableEq

/-- The dictionary passed to `torch.save` in `src/training/train.py`
lines 287-293:
`{'epoch': epoch, 'model_state_dict': model.state_dict(),`
` 'optimizer_state_dict': optimizer.state_dict(), 'val_acc': val_acc,`
` 'config': OmegaConf.to_container(cfg)}`. -/
def checkpointDict {StateDict OptState Config : Type}
    (epoch : ℕ) (stateDict : StateDict) (optState : OptState)
    (valAcc : ℚ) (config : Config) :
    List (String × CkptValue StateDict OptState Config) :=
  [("epoch", .natV epoch),
   ("model_state_dict", .stateDictV stateDict),
   ("optimizer_state_dict", .optStateV optState),
   ("val_acc", .ratV valAcc),
   ("config", .configV config)]

/-! ## Serving-layer routes (for C5)

Routes registered on the FastAPI apps, in source order.  `serve/app.py`
registers `/` (96), `/health` (106), `/predict` (116), `/classes` (164),
`/model-info` (170).  `src/app/main.py` registers `/` (84), `/health`
(480), `/predict` (491), `/predict_batch` (539), `/classes` (584). -/

inductive Method where
  | get
  | post
deriving DecidableEq, Repr

/-- Endpoints of `serve/app.py`. -/
def serveAppRoutes : List (Method × String) :=
  [(.get, "/"), (.get, "/health"), (.post, "/predict"),
   (.get, "/classes"), (.get, "/model-info")]

/-- Endpoints of `src/app/main.py`. -/
def mainAppRoutes : List (Method × String) :=
  [(.get, "/"), (.get, "/health"), (.post, "/predict"),
   (.post, "/predict_batch"), (.get, "/classes")]

/-- The five endpoints named by the spec sentence behind C5. -/
def claimedEndpoints : List (Method × String) :=
  [(.get, "/health"), (.get, "/classes"), (.get, "/model-info"),
   (.post, "/predict"), (.post, "/predict_batch")]

/-! ## Serving-layer error conversion (for C6) -/

/-- An HTTP error response (`fastapi.HTTPException`). -/
structure HttpError where
  status : ℕ
  detail : String
deriving DecidableEq, Repr

/-- The `POST /predict` handler of `serve/app.py` (lines 116-161).
Everything inside the `try` block (model loading, image decoding,
inference) is abstracted into `work`; Python exceptions are the
`.error` case, carrying `str(e)`.  The `except` clause raises
`HTTPException(status_code=500, detail=f"Prediction error: {str(e)}")`. -/
def servePredict {α : Type} (work : Except String α) : Except HttpError α :=
  match work with
  | .ok r => .ok r
  | .error e => .error ⟨500, "Prediction error: " ++ e⟩

/-- The `POST /predict` handler of `src/app/main.py` (lines 491-536).
Before the `try` block the handler raises 503 when no model is loaded and
400 when the upload's content type is not `image/*`; any exception inside
the `try` block (decoding and inference, abstracted as `work`) becomes
`HTTPException(status_code=500, detail=f"Prediction failed: {str(e)}")`. -/
def predict_image_api {α : Type} (modelLoaded : Bool) (isImage : Bool)
    (work : Except String α) : Except HttpError α :=
  if ¬ modelLoaded then .error ⟨503, "Model not loaded"⟩
  else if ¬ isImage then .error ⟨400, "File must be an image"⟩
  else
    match work with
    | .ok r => .ok r
    | .error e => .error ⟨500, "Prediction failed: " ++ e⟩

end ImageClassifier

namespace ImageClassifier

/-! ## Theorems for C2 (AverageMeter) -/

/-- Sum of the weights of a list of updates. -/
def updWeight (us : List (ℚ × ℤ)) : ℤ := (us.map Prod.snd).sum

/-- Weighted sum of the values of a list of updates. -/
def updWeightedSum (us : List (ℚ × ℤ)) : ℚ :=
  (us.map fun u => u.1 * (u.2 : ℚ)).sum

theorem updWeight_nonneg (us : List (ℚ × ℤ)) (hn : ∀ u ∈ us, 1 ≤ u.2) :
    0 ≤ updWeight us := by
  induction us with
  | nil => simp [updWeight]
  | cons x xs ih =>
      have hx : 1 ≤ x.2 := hn x (by simp)
      have hxs := ih (fun u hu => hn u (by simp [hu]))
      simp only [updWeight, List.map_cons, List.sum_cons] at hxs ⊢
      omega

theorem averageMeter_runUpdates_spec (us : List (ℚ × ℤ))
    (hn : ∀ u ∈ us, 1 ≤ u.2) :
    (AverageMeter.runUpdates .reset us).count = updWeight us ∧
    (AverageMeter.runUpdates .reset us).sum = updWeightedSum us ∧
    (AverageMeter.runUpdates .reset us).avg =
      updWeightedSum us / (updWeight us : ℚ) := by
  induction us using List.reverseRecOn with
  | nil =>
      simp [AverageMeter.runUpdates, AverageMeter.reset, updWeight, updWeightedSum]
  | append_singleton l a ih =>
      have hl : ∀ u ∈ l, 1 ≤ u.2 := fun u hu => hn u (by simp [hu])
      have ha : 1 ≤ a.2 := hn a (by simp)
      obtain ⟨hc, hs, -⟩ := ih hl
      have hwnn : 0 ≤ updWeight l := updWeight_nonneg l hl
      have hW : updWeight (l ++ [a]) = updWeight l + a.2 := by
        simp [updWeight]
      have hS : updWeightedSum (l ++ [a]) = updWeightedSum l + a.1 * a.2 := by
        simp [updWeightedSum]
      have hrun : AverageMeter.runUpdates .reset (l ++ [a]) =
          (AverageMeter.runUpdates .reset l).update a.1 a.2 := by
        simp [AverageMeter.runUpdates]
      have hcount' : updWeight l + a.2 ≠ 0 := by omega
      refine ⟨?_, ?_, ?_⟩
      · rw [hrun, hW]
        simp [AverageMeter.update, hc]
      · rw [hrun, hS]
        simp [AverageMeter.update, hs]
      · rw [hrun, hW, hS]
        simp only [AverageMeter.update, hc, hs]
        rw [if_pos hcount']

/-- C2: for every sequence of `AverageMeter.update(val_i, n_i)` calls with
`n_i >= 1` after `reset`, the meter's `avg` equals the weighted mean
`(Σ val_i * n_i) / (Σ n_i)`, its `count` equals `Σ n_i`, and `reset` sets
`val`, `avg`, `sum` and `count` all to zero. -/
theorem C2_averageMeter_weighted_mean (us : List (ℚ × ℤ))
    (hn : ∀ u ∈ us, 1 ≤ u.2) :
    (AverageMeter.runUpdates .reset us).avg =
      updWeightedSum us / (updWeight us : ℚ) ∧
    (AverageMeter.runUpdates .reset us).count = updWeight us ∧
    AverageMeter.reset.val = 0 ∧ AverageMeter.reset.avg = 0 ∧
    AverageMeter.reset.sum = 0 ∧ AverageMeter.reset.count = 0 := by
  obtain ⟨hc, -, hv⟩ := averageMeter_runUpdates_spec us hn
  exact ⟨hv, hc, rfl, rfl, rfl, rfl⟩

/-- Witness for C2 at the concrete update sequence of
`test_weighted_update`: `update(10, 2); update(20, 3)` gives
`avg = 16`, `count = 5`. -/
theorem C2_witness :
    (AverageMeter.runUpdates .reset [((10 : ℚ), (2 : ℤ)), ((20 : ℚ), (3 : ℤ))]).avg = 16 ∧
    (AverageMeter.runUpdates .reset [((10 : ℚ), (2 : ℤ)), ((20 : ℚ), (3 : ℤ))]).count = 5 := by
  have h := C2_averageMeter_weighted_mean
    [((10 : ℚ), (2 : ℤ)), ((20 : ℚ), (3 : ℤ))] (by decide)
  exact ⟨h.1.trans (by norm_num [updWeightedSum, updWeight]),
    h.2.1.trans (by norm_num [updWeight])⟩

/-! ## Theorem for C7 (checkpoint contents) -/

/-- C7: every checkpoint written by the training loop (the only
`torch.save` call, `src/training/train.py` lines 287-293) is a mapping
containing the keys `model_state_dict` (the model's state dict), `epoch`
(the epoch number), `val_acc` (that epoch's validation accuracy) and
`config` (the configuration snapshot). -/
theorem C7_checkpoint_contains_required_keys
    {StateDict OptState Config : Type}
    (epoch : ℕ) (sd : StateDict) (os : OptState) (va : ℚ) (cfg : Config) :
    (checkpointDict epoch sd os va cfg).lookup "model_state_dict" =
      some (.stateDictV sd) ∧
    (checkpointDict epoch sd os va cfg).lookup "epoch" = some (.natV epoch) ∧
    (checkpointDict epoch sd os va cfg).lookup "val_acc" = some (.ratV va) ∧
    (checkpointDict epoch sd os va cfg).lookup "config" = some (.configV cfg) := by
  refine ⟨?_, ?_, ?_, ?_⟩ <;> rfl

/-! ## Theorems for C5 (served endpoints) -/

/-- C5 counterexample: no app exposes exactly the five claimed endpoints.
`serve/app.py` lacks `POST /predict_batch`, `src/app/main.py` lacks
`GET /model-info`, and both expose a root `GET /` that is not among the
five. -/
theorem C5_counterexample :
    (Method.post, "/predict_batch") ∉ serveAppRoutes ∧
    (Method.get, "/model-info") ∉ mainAppRoutes ∧
    (Method.get, "/") ∈ serveAppRoutes ∧
    (Method.get, "/") ∈ mainAppRoutes ∧
    (Method.get, "/") ∉ claimedEndpoints := by decide

/-- C5 amended: taken together, the two serving apps expose all five
claimed endpoints, and every endpoint either is one of the five or is the
root `GET /`; neither app alone exposes all five. -/
theorem C5_amended_endpoints :
    (claimedEndpoints.all fun r =>
      (serveAppRoutes ++ mainAppRoutes).contains r) = true ∧
    ((serveAppRoutes ++ mainAppRoutes).all fun r =>
      claimedEndpoints.contains r || decide (r = (Method.get, "/"))) = true ∧
    ¬ (claimedEndpoints.all fun r => serveAppRoutes.contains r) = true ∧
    ¬ (claimedEndpoints.all fun r => mainAppRoutes.contains r) = true := by
  decide

/-! ## Theorem for C6 (exceptions become HTTP 500) -/

/-- C6: in both `POST /predict` handlers, an exception raised during
image decoding or inference yields an HTTP 500 response whose detail
string contains the exception's message. -/
theorem C6_http500_contains_message (msg : String) :
    (∃ p s, servePredict (Except.error msg : Except String Unit) =
      .error ⟨500, p ++ msg ++ s⟩) ∧
    (∃ p s, predict_image_api true true
      (Except.error msg : Except String Unit) =
      .error ⟨500, p ++ msg ++ s⟩) := by
  refine ⟨⟨"Prediction error: ", "", ?_⟩, ⟨"Prediction failed: ", "", ?_⟩⟩ <;>
    simp [servePredict, predict_image_api]

/-! ## `serve/app.py`: the process-wide model cache (for C9)

`load_model` (lines 60-83): when `"model"` is not in `MODEL_CACHE` it
loads the checkpoint, builds the model and stores model and config in the
cache; otherwise it returns the cached model untouched.  A failing load
(missing file, `torch.load` error, state-dict mismatch) raises before
anything is stored.  `Model` and `ModelConfig` are opaque stand-ins for
the torch model object and the config dict; a load attempt is `some`
(success, with the loaded values) or `none` (some step raised). -/

/-- The cache `MODEL_CACHE`, holding model and config after a load. -/
def MCache (Model ModelConfig : Type) : Type := Option (Model × ModelConfig)

/-- One call to `load_model`: returns (result of the call, cache after the
call).  The result is `none` exactly when the call raised. -/
def load_model {Model ModelConfig : Type} (cache : MCache Model ModelConfig)
    (attempt : Option (Model × ModelConfig)) :
    Option Model × MCache Model ModelConfig :=
  match cache with
  | some entry => (some entry.1, some entry)
  | none =>
      match attempt with
      | some loaded => (some loaded.1, some loaded)
      | none => (none, none)

/-- A sequence of `load_model` calls: returns the list of results and the
final cache. -/
def runLoadCalls {Model ModelConfig : Type} (cache : MCache Model ModelConfig)
    (attempts : List (Option (Model × ModelConfig))) :
    List (Option Model) × MCache Model ModelConfig :=
  match attempts with
  | [] => ([], cache)
  | a :: rest =>
      let (r, c') := load_model cache a
      let (rs, cFinal) := runLoadCalls c' rest
      (r :: rs, cFinal)

/-- C9: the model cache is populated at most once.  A failing load leaves
the cache empty, a successful load on an empty cache populates it with
the loaded model and config, and once the cache holds an entry every
later `load_model` call returns that cached model and leaves the cache
unchanged, regardless of its load attempt. -/
theorem C9_model_cache_populated_once {Model ModelConfig : Type}
    (p : Model × ModelConfig) (loaded : Model × ModelConfig)
    (attempts : List (Option (Model × ModelConfig))) :
    load_model (none : MCache Model ModelConfig)
      (none : Option (Model × ModelConfig)) = (none, none) ∧
    load_model (none : MCache Model ModelConfig) (some loaded) =
      (some loaded.1, some loaded) ∧
    (runLoadCalls (some p) attempts).1 = attempts.map (fun _ => some p.1) ∧
    (runLoadCalls (some p) attempts).2 = some p := by
  refine ⟨rfl, rfl, ?_, ?_⟩ <;>
  · induction attempts with
    | nil => rfl
    | cons a rest ih => simpa [runLoadCalls, load_model] using ih

/-! ## `src/models/model.py`: `SimpleCNN` shape semantics (for C4)

Shape-level semantics of the layers used by `SimpleCNN.forward`, with
torch's size rules: `Conv2d` yields `(h + 2p - k) / s + 1` and requires
`h + 2p >= k`; `MaxPool2d(2, 2)` yields `(h - 2) / 2 + 1` and raises when
the input is smaller than the kernel; `Linear` requires the incoming
feature count to equal `in_features`.  `BatchNorm2d` and the pointwise
ops (`relu`, `dropout`) preserve shape; `BatchNorm2d` requires its
`num_features` to match the channel count.  A `none` result models a
raised runtime error. -/

/-- Shape of a 4-d tensor `(batch, channels, height, width)`. -/
structure TShape where
  n : ℕ
  c : ℕ
  h : ℕ
  w : ℕ
deriving DecidableEq, Repr

/-- `nn.Conv2d(inC, outC, kernel_size=k, padding=p)` (stride 1):
output spatial size `(h + 2p - k) / 1 + 1`, defined when `k ≤ h + 2p`. -/
def conv2dShape (inC outC k p : ℕ) (x : TShape) : Option TShape :=
  if x.c = inC ∧ k ≤ x.h + 2 * p ∧ k ≤ x.w + 2 * p then
    some ⟨x.n, outC, x.h + 2 * p - k + 1, x.w + 2 * p - k + 1⟩
  else none

/-- `nn.BatchNorm2d(features)`: shape-preserving, channels must match. -/
def batchNorm2dShape (features : ℕ) (x : TShape) : Option TShape :=
  if x.c = features then some x else none

/-- `nn.MaxPool2d(2, 2)`: halves height and width (floor), raising when
the input is smaller than the 2x2 kernel. -/
def maxPool2dShape (x : TShape) : Option TShape :=
  if 2 ≤ x.h ∧ 2 ≤ x.w then
    some ⟨x.n, x.c, (x.h - 2) / 2 + 1, (x.w - 2) / 2 + 1⟩
  else none

/-- `x.view(x.size(0), -1)`: flatten to `(batch, features)`. -/
def flattenShape (x : TShape) : ℕ × ℕ := (x.n, x.c * x.h * x.w)

/-- `nn.Linear(inF, outF)` on a 2-d input `(batch, features)`. -/
def linearShape (inF outF : ℕ) (v : ℕ × ℕ) : Option (ℕ × ℕ) :=
  if v.2 = inF then some (v.1, outF) else none

/-- Shape semantics of `SimpleCNN.forward` for a model built with
`SimpleCNN(num_classes, input_channels, dropout, image_size)`:
three blocks of `Conv2d(k=3, p=1) -> BatchNorm2d -> relu -> MaxPool2d(2,2)`
with 32/64/128 channels, then flatten,
`fc1 = Linear(128 * (image_size // 8)**2, 256)` and
`fc2 = Linear(256, num_classes)`. -/
def simpleCNNForwardShape (numClasses inputChannels imageSize : ℕ)
    (x : TShape) : Option (ℕ × ℕ) := do
  let x ← conv2dShape inputChannels 32 3 1 x
  let x ← batchNorm2dShape 32 x
  let x ← maxPool2dShape x
  let x ← conv2dShape 32 64 3 1 x
  let x ← batchNorm2dShape 64 x
  let x ← maxPool2dShape x
  let x ← conv2dShape 64 128 3 1 x
  let x ← batchNorm2dShape 128 x
  let x ← maxPool2dShape x
  let v := flattenShape x
  let v ← linearShape (128 * (imageSize / 8) * (imageSize / 8)) 256 v
  linearShape 256 numClasses v

theorem conv31_preserves (inC outC n h w : ℕ) (hh : 1 ≤ h) (hw : 1 ≤ w) :
    conv2dShape inC outC 3 1 ⟨n, inC, h, w⟩ = some ⟨n, outC, h, w⟩ := by
  simp only [conv2dShape]
  rw [if_pos ⟨trivial, by omega, by omega⟩]
  have h1 : h + 2 * 1 - 3 + 1 = h := by omega
  have h2 : w + 2 * 1 - 3 + 1 = w := by omega
  rw [h1, h2]

theorem maxPool_halves (n c h w : ℕ) (hh : 2 ≤ h) (hw : 2 ≤ w) :
    maxPool2dShape ⟨n, c, h, w⟩ = some ⟨n, c, h / 2, w / 2⟩ := by
  simp only [maxPool2dShape]
  rw [if_pos ⟨hh, hw⟩]
  have h1 : (h - 2) / 2 + 1 = h / 2 := by omega
  have h2 : (w - 2) / 2 + 1 = w / 2 := by omega
  rw [h1, h2]

/-- C4 counterexample: the constructor accepts `image_size = 4` (there is
no validation), yet the forward pass on an input of shape `(1, 3, 4, 4)`
raises at the third pooling layer instead of returning a `(1, 10)`
tensor. -/
theorem C4_counterexample :
    simpleCNNForwardShape 10 3 4 ⟨1, 3, 4, 4⟩ = none := by decide

/-- C4 amended: for every `image_size ≥ 8` and every input of shape
`(batch, input_channels, image_size, image_size)`, `SimpleCNN.forward`
returns a tensor of shape `(batch, num_classes)`, the flattened feature
size being `128 * (image_size // 8)^2` after the three stride-2 poolings
(no divisibility is needed); for `image_size < 8` the constructor still
accepts the size but the forward pass raises at a pooling layer. -/
theorem C4_forward_output_shape (numClasses inputChannels imageSize n : ℕ)
    (h8 : 8 ≤ imageSize) :
    simpleCNNForwardShape numClasses inputChannels imageSize
      ⟨n, inputChannels, imageSize, imageSize⟩ = some (n, numClasses) := by
  have e1 := conv31_preserves inputChannels 32 n imageSize imageSize
    (by omega) (by omega)
  have e2 := maxPool_halves n 32 imageSize imageSize (by omega) (by omega)
  have e3 := conv31_preserves 32 64 n (imageSize / 2) (imageSize / 2)
    (by omega) (by omega)
  have e4 := maxPool_halves n 64 (imageSize / 2) (imageSize / 2)
    (by omega) (by omega)
  have e5 := conv31_preserves 64 128 n (imageSize / 2 / 2) (imageSize / 2 / 2)
    (by omega) (by omega)
  have e6 := maxPool_halves n 128 (imageSize / 2 / 2) (imageSize / 2 / 2)
    (by omega) (by omega)
  have hdiv : imageSize / 2 / 2 / 2 = imageSize / 8 := by omega
  have e7 : linearShape (128 * (imageSize / 8) * (imageSize / 8)) 256
      (flattenShape ⟨n, 128, imageSize / 2 / 2 / 2, imageSize / 2 / 2 / 2⟩) =
      some (n, 256) := by
    simp only [flattenShape, linearShape, hdiv, eq_self_iff_true, if_true]
  simp only [simpleCNNForwardShape, Option.bind_eq_bind, e1, Option.some_bind,
    batchNorm2dShape, eq_self_iff_true, if_true, e2, e3, e4, e5, e6, e7]
  simp [linearShape]

/-- Witness for C4 at `image_size = 32`, batch 2 (the CIFAR-10 shape the
repository's tests exercise): output shape `(2, 10)`. -/
theorem C4_witness :
    simpleCNNForwardShape 10 3 32 ⟨2, 3, 32, 32⟩ = some (2, 10) :=
  C4_forward_output_shape 10 3 32 2 (by decide)

/-! ## `src/training/train.py`: best-checkpoint writes and read (for C8)

The per-epoch checkpoint logic of `main` (lines 278-302): after
validation, if `val_acc > best_val_acc` then `best_val_acc` is updated,
`patience_counter` is reset and — only when `cfg.save_best_only` is set —
the checkpoint is written; otherwise `patience_counter` is incremented.
When `patience_counter >= cfg.early_stopping_patience` the loop breaks.
After the loop (lines 308-314) the best-model file is loaded once if it
exists.  Validation accuracies are the inputs; `saves` records, in order,
the (epoch index, val_acc) of every checkpoint write. -/

structure LoopState where
  best : ℚ
  patience : ℕ
  saves : List (ℕ × ℚ)
  executed : ℕ
  stopped : Bool
deriving Repr, DecidableEq

/-- The improvement branch of the epoch body (lines 279-297): on
`val_acc > best_val_acc` update the best, reset patience, and write the
checkpoint only when `save_best_only` is set; otherwise increment
`patience_counter`. -/
def updateBest (saveBestOnly : Bool) (s : LoopState) (i : ℕ) (acc : ℚ) :
    LoopState :=
  if s.best < acc then
    { best := acc, patience := 0,
      saves := if saveBestOnly then s.saves ++ [(i, acc)] else s.saves,
      executed := s.executed + 1, stopped := s.stopped }
  else
    { best := s.best, patience := s.patience + 1, saves := s.saves,
      executed := s.executed + 1, stopped := s.stopped }

/-- The early-stopping check (lines 300-302): break out of the loop when
`patience_counter >= cfg.early_stopping_patience`. -/
def stopCheck (patienceLimit : ℕ) (s : LoopState) : LoopState :=
  if patienceLimit ≤ s.patience then { s with stopped := true } else s

/-- One epoch of the training loop's checkpoint/early-stop logic. -/
def epochStep (saveBestOnly : Bool) (patienceLimit : ℕ) (s : LoopState)
    (i : ℕ) (acc : ℚ) : LoopState :=
  stopCheck patienceLimit (updateBest saveBestOnly s i acc)

/-- The epoch loop; a `break` is modelled by the `stopped` flag, which
skips all remaining epochs. -/
def runEpochs (saveBestOnly : Bool) (patienceLimit : ℕ) (s : LoopState)
    (i : ℕ) : List ℚ → LoopState
  | [] => s
  | a :: rest =>
      if s.stopped then s
      else runEpochs saveBestOnly patienceLimit
        (epochStep saveBestOnly patienceLimit s i a) (i + 1) rest

/-- Initial state: `best_val_acc = 0.0`, `patience_counter = 0`. -/
def initLoopState : LoopState := ⟨0, 0, [], 0, false⟩

/-- The whole training loop over the sequence of validation accuracies. -/
def trainLoop (saveBestOnly : Bool) (patienceLimit : ℕ)
    (valAccs : List ℚ) : LoopState :=
  runEpochs saveBestOnly patienceLimit initLoopState 0 valAccs

/-- After training, the best-model file is loaded exactly once if it
exists (lines 308-314); starting from a fresh model directory it exists
iff some epoch wrote it. -/
def loadsAfter (s : LoopState) : ℕ := if s.saves = [] then 0 else 1

/-- Specification of the checkpoint writes: the epochs (numbered from
`i`) whose accuracy strictly exceeds the running best (seeded with
`best`). -/
def newSaves (best : ℚ) (i : ℕ) : List ℚ → List (ℕ × ℚ)
  | [] => []
  | a :: rest =>
      if best < a then (i, a) :: newSaves a (i + 1) rest
      else newSaves best (i + 1) rest

theorem stopCheck_of_lt (pl : ℕ) (s : LoopState) (h : s.patience < pl) :
    stopCheck pl s = s := by
  unfold stopCheck
  rw [if_neg (by omega)]

theorem runEpochs_no_save_without_flag (pl : ℕ) (accs : List ℚ) :
    ∀ (s : LoopState) (i : ℕ),
      (runEpochs false pl s i accs).saves = s.saves := by
  induction accs with
  | nil => intro s i; rfl
  | cons a rest ih =>
      intro s i
      by_cases hstop : s.stopped = true
      · simp [runEpochs, hstop]
      · rw [Bool.not_eq_true] at hstop
        simp only [runEpochs, hstop, Bool.false_eq_true, if_false]
        rw [ih]
        unfold epochStep stopCheck updateBest
        by_cases himp : s.best < a
        · rw [if_pos himp]
          simp only [Bool.false_eq_true, if_false]
          split <;> rfl
        · rw [if_neg himp]
          split <;> rfl

theorem runEpochs_saves_spec (pl : ℕ) (accs : List ℚ) :
    ∀ (s : LoopState) (i : ℕ), s.stopped = false →
      s.patience + accs.length < pl →
      (runEpochs true pl s i accs).saves = s.saves ++ newSaves s.best i accs ∧
      (runEpochs true pl s i accs).executed = s.executed + accs.length := by
  induction accs with
  | nil => intro s i _ _; simp [runEpochs, newSaves]
  | cons a rest ih =>
      intro s i hstop hpat
      simp only [List.length_cons] at hpat
      simp only [runEpochs, hstop, Bool.false_eq_true, if_false]
      by_cases himp : s.best < a
      · have hstep : epochStep true pl s i a =
            ⟨a, 0, s.saves ++ [(i, a)], s.executed + 1, s.stopped⟩ := by
          unfold epochStep updateBest
          rw [if_pos himp]
          simp only [if_true]
          exact stopCheck_of_lt pl _ (by show (0 : ℕ) < pl; omega)
        rw [hstep]
        obtain ⟨h1, h2⟩ := ih ⟨a, 0, s.saves ++ [(i, a)], s.executed + 1, s.stopped⟩
          (i + 1) hstop (by show 0 + rest.length < pl; omega)
        refine ⟨?_, ?_⟩
        · rw [h1]
          show s.saves ++ [(i, a)] ++ newSaves a (i + 1) rest =
            s.saves ++ newSaves s.best i (a :: rest)
          simp only [newSaves, if_pos himp, List.append_assoc, List.singleton_append]
        · rw [h2]
          show s.executed + 1 + rest.length = s.executed + (rest.length + 1)
          omega
      · have hstep : epochStep true pl s i a =
            ⟨s.best, s.patience + 1, s.saves, s.executed + 1, s.stopped⟩ := by
          unfold epochStep updateBest
          rw [if_neg himp]
          exact stopCheck_of_lt pl _ (by show s.patience + 1 < pl; omega)
        rw [hstep]
        obtain ⟨h1, h2⟩ := ih ⟨s.best, s.patience + 1, s.saves, s.executed + 1, s.stopped⟩
          (i + 1) hstop (by show s.patience + 1 + rest.length < pl; omega)
        refine ⟨?_, ?_⟩
        · rw [h1]
          show s.saves ++ newSaves s.best (i + 1) rest =
            s.saves ++ newSaves s.best i (a :: rest)
          simp only [newSaves, if_neg himp]
        · rw [h2]
          show s.executed + 1 + rest.length = s.executed + (rest.length + 1)
          omega

theorem mem_newSaves_iff (accs : List ℚ) :
    ∀ (best : ℚ) (i j : ℕ) (a : ℚ),
      (j, a) ∈ newSaves best i accs ↔
        ∃ k, k < accs.length ∧ j = i + k ∧ accs.getD k 0 = a ∧
          (accs.take k).foldl max best < a := by
  induction accs with
  | nil => intro best i j a; simp [newSaves]
  | cons x rest ih =>
      intro best i j a
      by_cases hx : best < x
      · simp only [newSaves, if_pos hx, List.mem_cons]
        constructor
        · rintro (heq | htail)
          · have h1 : j = i ∧ a = x := by simpa [Prod.ext_iff] using heq
            refine ⟨0, by simp, by omega, by simpa using h1.2.symm, ?_⟩
            simp only [List.take_zero, List.foldl_nil]
            rw [h1.2]
            exact hx
          · obtain ⟨k, hk, hj, hget, hfold⟩ := (ih x (i + 1) j a).mp htail
            refine ⟨k + 1, by simp only [List.length_cons]; omega, by omega,
              by simpa using hget, ?_⟩
            simpa [List.take_succ_cons, List.foldl_cons,
              max_eq_right hx.le] using hfold
        · rintro ⟨k, hk, hj, hget, hfold⟩
          rcases k with _ | k'
          · left
            have hxa : x = a := by simpa using hget
            simp [Prod.ext_iff]
            exact ⟨by omega, hxa.symm⟩
          · right
            refine (ih x (i + 1) j a).mpr ⟨k', by simp only [List.length_cons] at hk; omega,
              by omega, by simpa using hget, ?_⟩
            simpa [List.take_succ_cons, List.foldl_cons,
              max_eq_right hx.le] using hfold
      · simp only [newSaves, if_neg hx]
        rw [ih best (i + 1) j a]
        constructor
        · rintro ⟨k, hk, hj, hget, hfold⟩
          refine ⟨k + 1, by simp only [List.length_cons]; omega, by omega,
            by simpa using hget, ?_⟩
          simpa [List.take_succ_cons, List.foldl_cons,
            max_eq_left (le_of_not_lt hx)] using hfold
        · rintro ⟨k, hk, hj, hget, hfold⟩
          rcases k with _ | k'
          · exfalso
            have hxa : x = a := by simpa using hget
            have hba : best < a := by simpa using hfold
            rw [← hxa] at hba
            exact hx hba
          · refine ⟨k', by simp only [List.length_cons] at hk; omega, by omega,
              by simpa using hget, ?_⟩
            simpa [List.take_succ_cons, List.foldl_cons,
              max_eq_left (le_of_not_lt hx)] using hfold

theorem newSaves_indices_le (accs : List ℚ) :
    ∀ (best : ℚ) (i : ℕ) (p : ℕ × ℚ), p ∈ newSaves best i accs → i ≤ p.1 := by
  induction accs with
  | nil => intro best i p hp; simp [newSaves] at hp
  | cons x rest ih =>
      intro best i p hp
      by_cases hx : best < x
      · simp only [newSaves, if_pos hx, List.mem_cons] at hp
        rcases hp with rfl | hp
        · simp
        · have := ih x (i + 1) p hp
          omega
      · simp only [newSaves, if_neg hx] at hp
        have := ih best (i + 1) p hp
        omega

theorem newSaves_pairwise (accs : List ℚ) :
    ∀ (best : ℚ) (i : ℕ),
      (newSaves best i accs).Pairwise (fun p q => p.1 < q.1) := by
  induction accs with
  | nil => intro best i; simp [newSaves]
  | cons x rest ih =>
      intro best i
      by_cases hx : best < x
      · simp only [newSaves, if_pos hx, List.pairwise_cons]
        refine ⟨?_, ih x (i + 1)⟩
        intro q hq
        have := newSaves_indices_le rest x (i + 1) q hq
        omega
      · simp only [newSaves, if_neg hx]
        exact ih best (i + 1)

/-- C8 counterexample: with `cfg.save_best_only` disabled, an epoch whose
validation accuracy strictly exceeds every previous one (here the single
epoch 0 with accuracy 50 > 0) writes no checkpoint at all, and nothing is
read afterwards; the write is not in an iff-relation with improvement. -/
theorem C8_counterexample :
    (trainLoop false 10 [(50 : ℚ)]).executed = 1 ∧
    ((0 : ℚ) < 50) ∧
    (trainLoop false 10 [(50 : ℚ)]).saves = [] ∧
    loadsAfter (trainLoop false 10 [(50 : ℚ)]) = 0 := by
  refine ⟨rfl, by norm_num, rfl, rfl⟩

/-- C8 amended: when `cfg.save_best_only` is enabled and early stopping
does not trigger (`early_stopping_patience` exceeds the epoch count), a
checkpoint is written in epoch `j` iff that epoch's validation accuracy
strictly exceeds the running best — `best_val_acc` starts at 0.0, so the
max of 0 and all previous accuracies — once per improved epoch, in epoch
order; with `save_best_only` disabled no checkpoint is ever written; and
the best checkpoint is read exactly once after training iff the file was
written at least once (starting from a fresh model directory). -/
theorem C8_checkpoint_written_iff_improved (valAccs : List ℚ) (pl : ℕ)
    (hpl : valAccs.length < pl) :
    (∀ j a, (j, a) ∈ (trainLoop true pl valAccs).saves ↔
      (j < valAccs.length ∧ valAccs.getD j 0 = a ∧
        (valAccs.take j).foldl max 0 < a)) ∧
    ((trainLoop true pl valAccs).saves.map Prod.fst).Pairwise (· < ·) ∧
    (trainLoop true pl valAccs).executed = valAccs.length ∧
    (trainLoop false pl valAccs).saves = [] ∧
    (loadsAfter (trainLoop true pl valAccs) = 1 ↔
      (trainLoop true pl valAccs).saves ≠ []) := by
  obtain ⟨h1, h2⟩ := runEpochs_saves_spec pl valAccs initLoopState 0 rfl
    (by show 0 + valAccs.length < pl; omega)
  have hsaves : (trainLoop true pl valAccs).saves = newSaves 0 0 valAccs := by
    simpa [trainLoop, initLoopState] using h1
  refine ⟨?_, ?_, ?_, ?_, ?_⟩
  · intro j a
    rw [hsaves, mem_newSaves_iff]
    constructor
    · rintro ⟨k, hk, hj, hget, hfold⟩
      have hk0 : k = j := by omega
      subst hk0
      exact ⟨hk, hget, hfold⟩
    · rintro ⟨hj, hget, hfold⟩
      exact ⟨j, hj, by omega, hget, hfold⟩
  · rw [hsaves, List.pairwise_map]
    exact newSaves_pairwise valAccs 0 0
  · simpa [trainLoop, initLoopState] using h2
  · simpa [trainLoop] using
      runEpochs_no_save_without_flag pl valAccs initLoopState 0
  · unfold loadsAfter
    by_cases h : (trainLoop true pl valAccs).saves = [] <;> simp [h]

/-- Witness for C8 at `valAccs = [50, 40, 60]`, patience 10: epochs 0 and
2 improve (50 > 0 and 60 > 50) so their checkpoints are written, epoch 1
does not (40 < 50) and writes none; disabling `save_best_only` writes
nothing. -/
theorem C8_witness :
    (0, (50 : ℚ)) ∈ (trainLoop true 10 [(50 : ℚ), 40, 60]).saves ∧
    (2, (60 : ℚ)) ∈ (trainLoop true 10 [(50 : ℚ), 40, 60]).saves ∧
    ¬ (1, (40 : ℚ)) ∈ (trainLoop true 10 [(50 : ℚ), 40, 60]).saves ∧
    (trainLoop false 10 [(50 : ℚ), 40, 60]).saves = [] := by
  have h := C8_checkpoint_written_iff_improved [(50 : ℚ), 40, 60] 10 (by norm_num)
  refine ⟨?_, ?_, ?_, h.2.2.2.1⟩
  · exact (h.1 0 50).mpr ⟨by norm_num, by norm_num, by norm_num⟩
  · exact (h.1 2 60).mpr ⟨by norm_num, by norm_num, by norm_num [List.take, List.foldl]⟩
  · intro hmem
    have := (h.1 1 40).mp hmem
    norm_num [List.take, List.foldl] at this

/-! ## `src/utils/experiment_tracking.py`: `ExperimentTracker` (for C1)

The tracker is embedded as a state machine over oracles describing which
external calls succeed.  `TrackCfg` models the configuration flags the
tracker reads (`cfg.tracking.get(flag, True)` defaults are explicit
fields); `ExtEnv` models the outcome of each external call made during
initialization.  A logging method is represented by the list of backends
it actually calls out to; the empty contribution of a backend is the
"no-op" of the claim.  The `.lower()` normalization of the backend string
is omitted: the embedding takes the already-lowercased string. -/

structure TrackCfg where
  hasTracking : Bool
  trackingEnabled : Bool
  autolog : Bool
  logParams : Bool
  logMetrics : Bool
  logArtifacts : Bool
  logModels : Bool
  logModelW : Bool
deriving DecidableEq, Repr

structure ExtEnv where
  mlflowImportOk : Bool
  setTrackingUriOk : Bool
  setExperimentOk : Bool
  startRunOk : Bool
  autologOk : Bool
  wandbImportOk : Bool
  wandbInitOk : Bool
  wandbInfoOk : Bool
deriving DecidableEq, Repr

/-- Result of one `_init_*` call: whether the run handle was assigned,
the warnings printed, and `self.tracking_backend` afterwards. -/
structure InitOutcome where
  run : Bool
  warnings : List String
  backend : String
deriving DecidableEq, Repr

def mlflowNotInstalledWarning : String :=
  "Warning: MLflow not installed. Install with: pip install mlflow"

/-- Exception text elided. -/
def mlflowInitWarning : String := "Warning: Could not initialize MLflow"

def wandbNotInstalledWarning : String :=
  "Warning: W&B not installed. Install with: pip install wandb"

/-- Exception text elided. -/
def wandbInitWarning : String := "Warning: Could not initialize W&B"

/-- `tb.replace("mlflow", "").replace("both", "wandb").strip()` evaluated
on the values `tracking_backend` can hold ("mlflow", "wandb", "both", ""). -/
def dropMlflowBackend (tb : String) : String :=
  if tb = "mlflow" then "" else if tb = "both" then "wandb" else tb

/-- `tb.replace("wandb", "").replace("both", "mlflow").strip()` evaluated
on the values `tracking_backend` can hold. -/
def dropWandbBackend (tb : String) : String :=
  if tb = "wandb" then "" else if tb = "both" then "mlflow" else tb

/-- `_init_mlflow` (lines 34-77).  In order: `import mlflow`
(`ImportError` prints a warning and rewrites `tracking_backend`), the
disabled-config early return, `set_tracking_uri`, `set_experiment`,
`start_run` — a raise in any of these is caught with a warning and leaves
`self.mlflow_run = None` — and finally, after the run handle is assigned,
the optional `mlflow.pytorch.autolog` call, whose raise is also caught
with a warning but leaves the run handle assigned. -/
def initMlflow (tb : String) (cfg : TrackCfg) (env : ExtEnv) : InitOutcome :=
  if ¬ env.mlflowImportOk then
    ⟨false, [mlflowNotInstalledWarning], dropMlflowBackend tb⟩
  else if ¬ (cfg.hasTracking ∧ cfg.trackingEnabled) then
    ⟨false, [], tb⟩
  else if ¬ env.setTrackingUriOk then ⟨false, [mlflowInitWarning], tb⟩
  else if ¬ env.setExperimentOk then ⟨false, [mlflowInitWarning], tb⟩
  else if ¬ env.startRunOk then ⟨false, [mlflowInitWarning], tb⟩
  else if cfg.autolog ∧ ¬ env.autologOk then ⟨true, [mlflowInitWarning], tb⟩
  else ⟨true, [], tb⟩

/-- `_init_wandb` (lines 79-128).  In order: `import wandb`
(`ImportError` prints a warning and rewrites `tracking_backend`), the
disabled-config early return, `wandb.init` — a raise leaves
`self.wandb_run = None` — and the post-assignment info printing
(`self.wandb_run.get_url()`), whose raise is caught with a warning but
leaves the run handle assigned. -/
def initWandb (tb : String) (cfg : TrackCfg) (env : ExtEnv) : InitOutcome :=
  if ¬ env.wandbImportOk then
    ⟨false, [wandbNotInstalledWarning], dropWandbBackend tb⟩
  else if ¬ (cfg.hasTracking ∧ cfg.trackingEnabled) then
    ⟨false, [], tb⟩
  else if ¬ env.wandbInitOk then ⟨false, [wandbInitWarning], tb⟩
  else if ¬ env.wandbInfoOk then ⟨true, [wandbInitWarning], tb⟩
  else ⟨true, [], tb⟩

/-- State of the tracker after `__init__`. -/
structure TrackerState where
  mlflowRun : Bool
  wandbRun : Bool
  trackingBackend : String
  warnings : List String
deriving DecidableEq, Repr

/-- `ExperimentTracker.__init__` (lines 14-32): initialize MLflow when the
backend string is `"mlflow"` or `"both"`, then W&B when the — possibly
rewritten — backend string is `"wandb"` or `"both"`. -/
def trackerInit (backend : String) (cfg : TrackCfg) (env : ExtEnv) :
    TrackerState :=
  if backend = "mlflow" ∨ backend = "both" then
    if (initMlflow backend cfg env).backend = "wandb" ∨
        (initMlflow backend cfg env).backend = "both" then
      ⟨(initMlflow backend cfg env).run,
       (initWandb (initMlflow backend cfg env).backend cfg env).run,
       (initWandb (initMlflow backend cfg env).backend cfg env).backend,
       (initMlflow backend cfg env).warnings ++
         (initWandb (initMlflow backend cfg env).backend cfg env).warnings⟩
    else
      ⟨(initMlflow backend cfg env).run, false,
       (initMlflow backend cfg env).backend,
       (initMlflow backend cfg env).warnings⟩
  else if backend = "wandb" ∨ backend = "both" then
    ⟨false, (initWandb backend cfg env).run,
     (initWandb backend cfg env).backend,
     (initWandb backend cfg env).warnings⟩
  else ⟨false, false, backend, []⟩

/-- A backend actually called by a logging method. -/
inductive Backend where
  | mlflowB
  | wandbB
deriving DecidableEq, Repr

/-- `log_params` (lines 130-145): each backend is called iff its run
handle is set and `log_params` is enabled. -/
def log_params_calls (s : TrackerState) (cfg : TrackCfg) : List Backend :=
  (if s.mlflowRun ∧ cfg.logParams then [.mlflowB] else []) ++
  (if s.wandbRun ∧ cfg.logParams then [.wandbB] else [])

/-- `log_metrics` (lines 147-163). -/
def log_metrics_calls (s : TrackerState) (cfg : TrackCfg) : List Backend :=
  (if s.mlflowRun ∧ cfg.logMetrics then [.mlflowB] else []) ++
  (if s.wandbRun ∧ cfg.logMetrics then [.wandbB] else [])

/-- `log_artifact` (lines 165-183): MLflow is called for a file or a
directory, W&B only for a file. -/
def log_artifact_calls (s : TrackerState) (cfg : TrackCfg)
    (isFile isDir : Bool) : List Backend :=
  (if s.mlflowRun ∧ cfg.logArtifacts ∧ (isFile ∨ isDir) then [.mlflowB] else []) ++
  (if s.wandbRun ∧ cfg.logArtifacts ∧ isFile then [.wandbB] else [])

/-- `log_model` (lines 185-213): the MLflow branch reads `log_models`,
the W&B branch reads `log_model` and needs a `model_path`. -/
def log_model_calls (s : TrackerState) (cfg : TrackCfg)
    (hasPath : Bool) : List Backend :=
  (if s.mlflowRun ∧ cfg.logModels then [.mlflowB] else []) ++
  (if s.wandbRun ∧ cfg.logModelW ∧ hasPath then [.wandbB] else [])

/-- `log_figure` (lines 215-232): no config flag, only the run handles. -/
def log_figure_calls (s : TrackerState) : List Backend :=
  (if s.mlflowRun then [.mlflowB] else []) ++
  (if s.wandbRun then [.wandbB] else [])

/-- The raise sites of `_init_mlflow`: the import, the three setup calls
and `start_run`, and the post-assignment `autolog` call. -/
def mlflowInitRaises (cfg : TrackCfg) (env : ExtEnv) : Prop :=
  ¬ env.mlflowImportOk ∨
    (cfg.hasTracking ∧ cfg.trackingEnabled ∧
      (¬ env.setTrackingUriOk ∨ ¬ env.setExperimentOk ∨ ¬ env.startRunOk ∨
        (cfg.autolog ∧ ¬ env.autologOk)))

/-- The raise sites of `_init_mlflow` that occur before `self.mlflow_run`
is assigned. -/
def mlflowFailsBeforeRun (cfg : TrackCfg) (env : ExtEnv) : Prop :=
  ¬ env.mlflowImportOk ∨
    (cfg.hasTracking ∧ cfg.trackingEnabled ∧
      (¬ env.setTrackingUriOk ∨ ¬ env.setExperimentOk ∨ ¬ env.startRunOk))

/-- The raise sites of `_init_wandb` that occur before `self.wandb_run`
is assigned. -/
def wandbFailsBeforeRun (cfg : TrackCfg) (env : ExtEnv) : Prop :=
  ¬ env.wandbImportOk ∨
    (cfg.hasTracking ∧ cfg.trackingEnabled ∧ ¬ env.wandbInitOk)

theorem initMlflow_fails (tb : String) (cfg : TrackCfg) (env : ExtEnv)
    (h : mlflowFailsBeforeRun cfg env) :
    (initMlflow tb cfg env).run = false ∧
    (initMlflow tb cfg env).warnings ≠ [] := by
  unfold initMlflow
  by_cases h1 : env.mlflowImportOk = true
  · have h2 : cfg.hasTracking ∧ cfg.trackingEnabled ∧
        (¬ env.setTrackingUriOk ∨ ¬ env.setExperimentOk ∨ ¬ env.startRunOk) := by
      rcases h with h | h
      · exact absurd h1 h
      · exact h
    obtain ⟨ht, he, hstep⟩ := h2
    by_cases h3 : env.setTrackingUriOk = true
    · by_cases h4 : env.setExperimentOk = true
      · have h5 : env.startRunOk = false := by
          rcases hstep with h | h | h
          · exact absurd h3 h
          · exact absurd h4 h
          · simpa using h
        simp [h1, ht, he, h3, h4, h5]
      · simp [h1, ht, he, h3, h4]
    · simp [h1, ht, he, h3]
  · simp [h1]

theorem initMlflow_ok (tb : String) (cfg : TrackCfg) (env : ExtEnv)
    (h1 : env.mlflowImportOk = true) (ht : cfg.hasTracking = true)
    (he : cfg.trackingEnabled = true) (h3 : env.setTrackingUriOk = true)
    (h4 : env.setExperimentOk = true) (h5 : env.startRunOk = true) :
    (initMlflow tb cfg env).run = true := by
  unfold initMlflow
  simp only [h1, ht, he, h3, h4, h5]
  by_cases h6 : cfg.autolog = true ∧ env.autologOk = false <;> simp [h6]

theorem initWandb_fails (tb : String) (cfg : TrackCfg) (env : ExtEnv)
    (h : wandbFailsBeforeRun cfg env) :
    (initWandb tb cfg env).run = false ∧
    (initWandb tb cfg env).warnings ≠ [] := by
  unfold initWandb
  by_cases h1 : env.wandbImportOk = true
  · have h2 : cfg.hasTracking ∧ cfg.trackingEnabled ∧ env.wandbInitOk = false := by
      rcases h with h | h
      · exact absurd h1 h
      · exact ⟨h.1, h.2.1, by simpa using h.2.2⟩
    obtain ⟨ht, he, h3⟩ := h2
    simp [h1, ht, he, h3]
  · simp [h1]

theorem initWandb_ok (tb : String) (cfg : TrackCfg) (env : ExtEnv)
    (h1 : env.wandbImportOk = true) (ht : cfg.hasTracking = true)
    (he : cfg.trackingEnabled = true) (h3 : env.wandbInitOk = true) :
    (initWandb tb cfg env).run = true := by
  unfold initWandb
  simp only [h1, ht, he, h3]
  by_cases h4 : env.wandbInfoOk = true <;> simp [h4]

theorem initMlflow_backend_both (cfg : TrackCfg) (env : ExtEnv) :
    (initMlflow "both" cfg env).backend = "wandb" ∨
    (initMlflow "both" cfg env).backend = "both" := by
  unfold initMlflow
  split
  · exact Or.inl rfl
  · split
    · exact Or.inr rfl
    · split
      · exact Or.inr rfl
      · split
        · exact Or.inr rfl
        · split
          · exact Or.inr rfl
          · split
            · exact Or.inr rfl
            · exact Or.inr rfl

theorem trackerInit_both_fields (cfg : TrackCfg) (env : ExtEnv) :
    (trackerInit "both" cfg env).mlflowRun = (initMlflow "both" cfg env).run ∧
    (trackerInit "both" cfg env).wandbRun =
      (initWandb (initMlflow "both" cfg env).backend cfg env).run ∧
    (trackerInit "both" cfg env).warnings =
      (initMlflow "both" cfg env).warnings ++
        (initWandb (initMlflow "both" cfg env).backend cfg env).warnings := by
  unfold trackerInit
  rw [if_pos (Or.inr rfl)]
  rcases initMlflow_backend_both cfg env with h | h
  · rw [if_pos (Or.inl h)]
    exact ⟨rfl, rfl, rfl⟩
  · rw [if_pos (Or.inr h)]
    exact ⟨rfl, rfl, rfl⟩

theorem mlflow_noop_of_no_run (s : TrackerState) (cfg : TrackCfg)
    (hml : s.mlflowRun = false) :
    Backend.mlflowB ∉ log_params_calls s cfg ∧
    Backend.mlflowB ∉ log_metrics_calls s cfg ∧
    (∀ f d, Backend.mlflowB ∉ log_artifact_calls s cfg f d) ∧
    (∀ hp, Backend.mlflowB ∉ log_model_calls s cfg hp) ∧
    Backend.mlflowB ∉ log_figure_calls s := by
  refine ⟨?_, ?_, fun f d => ?_, fun hp => ?_, ?_⟩ <;>
    simp only [log_params_calls, log_metrics_calls, log_artifact_calls,
      log_model_calls, log_figure_calls, hml, Bool.false_eq_true, false_and,
      if_false, List.nil_append, List.mem_ite_nil_right, List.mem_singleton] <;>
    simp

theorem wandb_noop_of_no_run (s : TrackerState) (cfg : TrackCfg)
    (hwb : s.wandbRun = false) :
    Backend.wandbB ∉ log_params_calls s cfg ∧
    Backend.wandbB ∉ log_metrics_calls s cfg ∧
    (∀ f d, Backend.wandbB ∉ log_artifact_calls s cfg f d) ∧
    (∀ hp, Backend.wandbB ∉ log_model_calls s cfg hp) ∧
    Backend.wandbB ∉ log_figure_calls s := by
  refine ⟨?_, ?_, fun f d => ?_, fun hp => ?_, ?_⟩ <;>
    simp only [log_params_calls, log_metrics_calls, log_artifact_calls,
      log_model_calls, log_figure_calls, hwb, Bool.false_eq_true, false_and,
      if_false, List.append_nil, List.mem_ite_nil_right, List.mem_singleton] <;>
    simp

/-- Tracking enabled, autologging configured, all log flags on. -/
def cfgAutolog : TrackCfg := ⟨true, true, true, true, true, true, true, true⟩

/-- Every external call succeeds except `mlflow.pytorch.autolog`. -/
def envAutologFails : ExtEnv := ⟨true, true, true, true, false, true, true, true⟩

/-- Every external call succeeds except `mlflow.start_run`. -/
def envStartRunFails : ExtEnv := ⟨true, true, true, false, true, true, true, true⟩

/-- Every external call succeeds except `wandb.init`. -/
def envWandbInitFails : ExtEnv := ⟨true, true, true, true, true, true, false, true⟩

/-- C1 counterexample: when `mlflow.pytorch.autolog` raises, the
exception is raised during `_init_mlflow` and a warning is printed, but
`self.mlflow_run` has already been assigned by `start_run`, so subsequent
logging calls still call out to MLflow — they are not no-ops for the
failed backend. -/
theorem C1_counterexample :
    mlflowInitRaises cfgAutolog envAutologFails ∧
    (trackerInit "both" cfgAutolog envAutologFails).warnings ≠ [] ∧
    Backend.mlflowB ∈
      log_metrics_calls (trackerInit "both" cfgAutolog envAutologFails)
        cfgAutolog := by
  refine ⟨by unfold mlflowInitRaises; decide, by decide, by decide⟩

/-- C1 amended: each backend is initialized independently; an exception
raised during a backend's import or initialization *before its run handle
is assigned* (for MLflow: the import, `set_tracking_uri`,
`set_experiment`, `start_run`; for W&B: the import, `wandb.init`) is
caught, a warning is printed, every subsequent logging call (`log_params`,
`log_metrics`, `log_artifact`, `log_model`, `log_figure`) is a no-op for
that backend, and the other backend still initializes normally.  (An
exception raised after the run handle is assigned — MLflow autolog setup,
W&B post-init info — is caught with a warning but leaves the backend
active.) -/
theorem C1_backend_failure_degrades (cfg : TrackCfg) (env env2 : ExtEnv)
    (hm : mlflowFailsBeforeRun cfg env)
    (hw : wandbFailsBeforeRun cfg env2) :
    ((trackerInit "both" cfg env).mlflowRun = false ∧
     (trackerInit "both" cfg env).warnings ≠ [] ∧
     Backend.mlflowB ∉ log_params_calls (trackerInit "both" cfg env) cfg ∧
     Backend.mlflowB ∉ log_metrics_calls (trackerInit "both" cfg env) cfg ∧
     (∀ f d, Backend.mlflowB ∉
       log_artifact_calls (trackerInit "both" cfg env) cfg f d) ∧
     (∀ hp, Backend.mlflowB ∉
       log_model_calls (trackerInit "both" cfg env) cfg hp) ∧
     Backend.mlflowB ∉ log_figure_calls (trackerInit "both" cfg env) ∧
     (env.wandbImportOk = true → env.wandbInitOk = true →
       cfg.hasTracking = true → cfg.trackingEnabled = true →
       (trackerInit "both" cfg env).wandbRun = true)) ∧
    ((trackerInit "both" cfg env2).wandbRun = false ∧
     (trackerInit "both" cfg env2).warnings ≠ [] ∧
     Backend.wandbB ∉ log_params_calls (trackerInit "both" cfg env2) cfg ∧
     Backend.wandbB ∉ log_metrics_calls (trackerInit "both" cfg env2) cfg ∧
     (∀ f d, Backend.wandbB ∉
       log_artifact_calls (trackerInit "both" cfg env2) cfg f d) ∧
     (∀ hp, Backend.wandbB ∉
       log_model_calls (trackerInit "both" cfg env2) cfg hp) ∧
     Backend.wandbB ∉ log_figure_calls (trackerInit "both" cfg env2) ∧
     (env2.mlflowImportOk = true → env2.setTrackingUriOk = true →
       env2.setExperimentOk = true → env2.startRunOk = true →
       cfg.hasTracking = true → cfg.trackingEnabled = true →
       (trackerInit "both" cfg env2).mlflowRun = true)) := by
  obtain ⟨f1, f2, f3⟩ := trackerInit_both_fields cfg env
  obtain ⟨g1, g2, g3⟩ := trackerInit_both_fields cfg env2
  obtain ⟨hr, hwarn⟩ := initMlflow_fails "both" cfg env hm
  obtain ⟨hr2, hwarn2⟩ :=
    initWandb_fails (initMlflow "both" cfg env2).backend cfg env2 hw
  have hml : (trackerInit "both" cfg env).mlflowRun = false := f1.trans hr
  have hwb2 : (trackerInit "both" cfg env2).wandbRun = false := g2.trans hr2
  obtain ⟨n1, n2, n3, n4, n5⟩ := mlflow_noop_of_no_run _ cfg hml
  obtain ⟨m1, m2, m3, m4, m5⟩ := wandb_noop_of_no_run _ cfg hwb2
  refine ⟨⟨hml, ?_, n1, n2, n3, n4, n5, ?_⟩, hwb2, ?_, m1, m2, m3, m4, m5, ?_⟩
  · rw [f3]
    intro hcontra
    exact hwarn (List.append_eq_nil.mp hcontra).1
  · intro a b c d
    rw [f2]
    exact initWandb_ok _ cfg env a c d b
  · rw [g3]
    intro hcontra
    exact hwarn2 (List.append_eq_nil.mp hcontra).2
  · intro a b c d e f9
    rw [g1]
    exact initMlflow_ok _ cfg env2 a e f9 b c d

/-- Witness for C1: with `start_run` failing, MLflow stays inactive,
logging skips it, and W&B still comes up; with `wandb.init` failing, the
symmetric situation. -/
theorem C1_witness :
    (trackerInit "both" cfgAutolog envStartRunFails).mlflowRun = false ∧
    (trackerInit "both" cfgAutolog envStartRunFails).wandbRun = true ∧
    Backend.mlflowB ∉
      log_metrics_calls (trackerInit "both" cfgAutolog envStartRunFails)
        cfgAutolog ∧
    (trackerInit "both" cfgAutolog envWandbInitFails).wandbRun = false ∧
    (trackerInit "both" cfgAutolog envWandbInitFails).mlflowRun = true := by
  have h := C1_backend_failure_degrades cfgAutolog envStartRunFails
    envWandbInitFails (by unfold mlflowFailsBeforeRun; decide)
    (by unfold wandbFailsBeforeRun; decide)
  exact ⟨h.1.1, h.1.2.2.2.2.2.2.2 rfl rfl rfl rfl, h.1.2.2.2.1, h.2.1,
    h.2.2.2.2.2.2.2.2 rfl rfl rfl rfl rfl rfl⟩

/-! ## `src/utils/metrics.py`: `calculate_metrics` (for C3)

`calculate_metrics(predictions, labels)` returns
`accuracy_score(labels, predictions)` and `precision_score` /
`recall_score` / `f1_score` with `average="macro"` and `zero_division=0`.
The scikit-learn functions are embedded from their documented semantics:
accuracy is the fraction of positions where the arrays agree; the label
set is the union of the distinct values of `y_true` and `y_pred`; for
each label, precision = TP/(TP+FP), recall = TP/(TP+FN),
f1 = 2TP/(2TP+FP+FN), each 0 when the denominator is 0
(`zero_division=0`); macro averaging is the unweighted mean over the
label set (its order does not affect the mean). -/

/-- `accuracy_score(y_true, y_pred)`. -/
def accuracy_score (yTrue yPred : List ℤ) : ℚ :=
  (((yTrue.zip yPred).countP fun p => decide (p.1 = p.2) : ℕ) : ℚ) /
    (yTrue.length : ℚ)

/-- True positives of label `l`: positions where both arrays are `l`. -/
def tpCount (yTrue yPred : List ℤ) (l : ℤ) : ℕ :=
  (yTrue.zip yPred).countP fun p => decide (p.1 = l ∧ p.2 = l)

/-- `TP + FP` of label `l`: positions predicted as `l`. -/
def predictedCount (yPred : List ℤ) (l : ℤ) : ℕ :=
  yPred.countP fun v => decide (v = l)

/-- `TP + FN` of label `l`: positions whose true value is `l`. -/
def actualCount (yTrue : List ℤ) (l : ℤ) : ℕ :=
  yTrue.countP fun v => decide (v = l)

/-- The labels a macro average runs over: the distinct values occurring
in either array. -/
def sklearnLabels (yTrue yPred : List ℤ) : List ℤ := (yTrue ++ yPred).dedup

/-- Unweighted mean of `f` over the label list. -/
def macroMean (L : List ℤ) (f : ℤ → ℚ) : ℚ := (L.map f).sum / (L.length : ℚ)

/-- `precision_score(y_true, y_pred, average="macro", zero_division=0)`. -/
def precision_score (yTrue yPred : List ℤ) : ℚ :=
  macroMean (sklearnLabels yTrue yPred) fun l =>
    if predictedCount yPred l = 0 then 0
    else (tpCount yTrue yPred l : ℚ) / (predictedCount yPred l : ℚ)

/-- `recall_score(y_true, y_pred, average="macro", zero_division=0)`. -/
def recall_score (yTrue yPred : List ℤ) : ℚ :=
  macroMean (sklearnLabels yTrue yPred) fun l =>
    if actualCount yTrue l = 0 then 0
    else (tpCount yTrue yPred l : ℚ) / (actualCount yTrue l : ℚ)

/-- `f1_score(y_true, y_pred, average="macro", zero_division=0)`. -/
def f1_score (yTrue yPred : List ℤ) : ℚ :=
  macroMean (sklearnLabels yTrue yPred) fun l =>
    if predictedCount yPred l + actualCount yTrue l = 0 then 0
    else (2 * tpCount yTrue yPred l : ℚ) /
      ((predictedCount yPred l : ℚ) + (actualCount yTrue l : ℚ))

/-- The dictionary returned by `calculate_metrics`, with keys
`accuracy`, `precision`, `recall`, `f1_score`. -/
structure Metrics where
  accuracy : ℚ
  precisionScore : ℚ
  recallScore : ℚ
  f1Score : ℚ
deriving DecidableEq, Repr

/-- `calculate_metrics(predictions, labels)` (lines 22-41): note the
argument swap — sklearn receives `labels` as `y_true` and `predictions`
as `y_pred`. -/
def calculate_metrics (predictions labels : List ℤ) : Metrics :=
  ⟨accuracy_score labels predictions,
   precision_score labels predictions,
   recall_score labels predictions,
   f1_score labels predictions⟩

theorem zip_self_eq_map {α : Type} (l : List α) :
    l.zip l = l.map fun x => (x, x) := by
  induction l with
  | nil => rfl
  | cons x xs ih => simp [List.zip_cons_cons, ih]

theorem sum_map_ones (L : List ℤ) (f : ℤ → ℚ) (h : ∀ l ∈ L, f l = 1) :
    (L.map f).sum = (L.length : ℚ) := by
  induction L with
  | nil => simp
  | cons x xs ih =>
      have hx := h x (by simp)
      have hxs := ih fun l hl => h l (by simp [hl])
      simp only [List.map_cons, List.sum_cons, hx, hxs, List.length_cons]
      push_cast
      ring

theorem macroMean_ones (L : List ℤ) (f : ℤ → ℚ) (h : ∀ l ∈ L, f l = 1)
    (hne : L ≠ []) : macroMean L f = 1 := by
  have h0 : L.length ≠ 0 := fun hL => hne (List.length_eq_zero.mp hL)
  have hlen : (L.length : ℚ) ≠ 0 := Nat.cast_ne_zero.mpr h0
  unfold macroMean
  rw [sum_map_ones L f h, div_self hlen]

theorem countP_ext {α : Type} (p q : α → Bool) (l : List α)
    (h : ∀ a ∈ l, p a = q a) : l.countP p = l.countP q := by
  induction l with
  | nil => rfl
  | cons x xs ih =>
      rw [List.countP_cons, List.countP_cons, h x (by simp),
        ih fun a ha => h a (by simp [ha])]

theorem tpCount_self (l : List ℤ) (lab : ℤ) :
    tpCount l l lab = predictedCount l lab := by
  unfold tpCount predictedCount
  rw [zip_self_eq_map, List.countP_map]
  exact countP_ext _ _ l fun a _ => by
    by_cases h : a = lab <;> simp [h]

theorem sklearnLabels_self_sub (l : List ℤ) (lab : ℤ)
    (h : lab ∈ sklearnLabels l l) : lab ∈ l := by
  rcases List.mem_append.mp (List.mem_dedup.mp h) with h | h <;> exact h

theorem sklearnLabels_self_ne_nil (l : List ℤ) (hne : l ≠ []) :
    sklearnLabels l l ≠ [] := by
  obtain ⟨x, hx⟩ := List.exists_mem_of_ne_nil l hne
  exact List.ne_nil_of_mem
    (List.mem_dedup.mpr (List.mem_append.mpr (Or.inl hx)))

theorem predictedCount_pos (l : List ℤ) (lab : ℤ) (h : lab ∈ l) :
    0 < predictedCount l lab :=
  List.countP_pos_iff.mpr ⟨lab, h, by simp⟩

theorem accuracy_score_self (l : List ℤ) (hne : l ≠ []) :
    accuracy_score l l = 1 := by
  have h0 : l.length ≠ 0 := fun hL => hne (List.length_eq_zero.mp hL)
  have hlen : (l.length : ℚ) ≠ 0 := Nat.cast_ne_zero.mpr h0
  unfold accuracy_score
  rw [zip_self_eq_map, List.countP_map]
  rw [List.countP_eq_length.mpr fun a _ => by simp]
  exact div_self hlen

theorem precision_score_self (l : List ℤ) (hne : l ≠ []) :
    precision_score l l = 1 := by
  unfold precision_score
  refine macroMean_ones _ _ (fun lab hlab => ?_) (sklearnLabels_self_ne_nil l hne)
  have hmem := sklearnLabels_self_sub l lab hlab
  have hpos := predictedCount_pos l lab hmem
  have hnz : (predictedCount l lab : ℚ) ≠ 0 := Nat.cast_ne_zero.mpr (by omega)
  rw [if_neg (by omega), tpCount_self]
  exact div_self hnz

theorem recall_score_self (l : List ℤ) (hne : l ≠ []) :
    recall_score l l = 1 := by
  unfold recall_score
  refine macroMean_ones _ _ (fun lab hlab => ?_) (sklearnLabels_self_ne_nil l hne)
  have hmem := sklearnLabels_self_sub l lab hlab
  have hpos : 0 < actualCount l lab := predictedCount_pos l lab hmem
  have hnz : (actualCount l lab : ℚ) ≠ 0 := Nat.cast_ne_zero.mpr (by omega)
  rw [if_neg (by omega)]
  rw [show tpCount l l lab = actualCount l lab from tpCount_self l lab]
  exact div_self hnz

theorem f1_score_self (l : List ℤ) (hne : l ≠ []) :
    f1_score l l = 1 := by
  unfold f1_score
  refine macroMean_ones _ _ (fun lab hlab => ?_) (sklearnLabels_self_ne_nil l hne)
  have hmem := sklearnLabels_self_sub l lab hlab
  have hpos := predictedCount_pos l lab hmem
  have hac : actualCount l lab = predictedCount l lab := rfl
  rw [if_neg (by omega), tpCount_self, hac]
  have hsum : ((predictedCount l lab : ℚ) + (predictedCount l lab : ℚ)) =
      2 * (predictedCount l lab : ℚ) := by ring
  rw [hsum]
  exact div_self (by
    have : (predictedCount l lab : ℚ) ≠ 0 := Nat.cast_ne_zero.mpr (by omega)
    exact mul_ne_zero two_ne_zero this)

/-- C3: for non-empty equal-length integer label arrays,
`calculate_metrics` returns accuracy, precision, recall and f1 all equal
to 1 when predictions equal labels elementwise, and accuracy 0 when they
disagree at every position. -/
theorem C3_metrics_perfect_and_disjoint (predictions labels : List ℤ)
    (hne : labels ≠ []) (hlen : predictions.length = labels.length) :
    (predictions = labels →
      calculate_metrics predictions labels = ⟨1, 1, 1, 1⟩) ∧
    ((∀ p ∈ labels.zip predictions, p.1 ≠ p.2) →
      (calculate_metrics predictions labels).accuracy = 0) := by
  constructor
  · intro h
    subst h
    unfold calculate_metrics
    rw [accuracy_score_self _ hne, precision_score_self _ hne,
      recall_score_self _ hne, f1_score_self _ hne]
  · intro h
    have hzero : (labels.zip predictions).countP
        (fun p => decide (p.1 = p.2)) = 0 :=
      List.countP_eq_zero.mpr fun p hp => by simpa using h p hp
    unfold calculate_metrics accuracy_score
    simp [hzero]

/-- Witness for C3 at the arrays of `test_perfect_predictions` and
`test_random_predictions`. -/
theorem C3_witness :
    calculate_metrics [0, 1, 2, 3, 4] [0, 1, 2, 3, 4] = ⟨1, 1, 1, 1⟩ ∧
    (calculate_metrics [0, 1, 0, 1, 0] [1, 0, 1, 0, 1]).accuracy = 0 := by
  have h1 := C3_metrics_perfect_and_disjoint [0, 1, 2, 3, 4] [0, 1, 2, 3, 4]
    (by decide) rfl
  have h2 := C3_metrics_perfect_and_disjoint [0, 1, 0, 1, 0] [1, 0, 1, 0, 1]
    (by decide) rfl
  exact ⟨h1.1 rfl, h2.2 (by decide)⟩

/-! ## `src/models/predict.py` and `src/app/main.py`: `/predict` (for C10)

`predict` (predict.py lines 78-104) computes
`confidence, predicted = torch.max(probabilities, 1)` and returns
`(classes[predicted], confidence, probabilities)`; the `/predict` handler
(main.py lines 509-533) then zips classes with probabilities and sorts the
pair list by probability, descending (`reverse=True`).  `torch.max` is
embedded as the maximum value together with the first index attaining it;
Python's stable descending sort is embedded as insertion sort on the
"greater-or-equal probability" relation — the claim's properties depend
only on sortedness and on the result being a permutation of the input. -/

/-- Scan of `torch.max` over one probability row: keep the maximum value
seen and the first index attaining it. -/
def maxFrom (bestV : ℚ) (bestI : ℕ) (i : ℕ) : List ℚ → ℚ × ℕ
  | [] => (bestV, bestI)
  | x :: xs =>
      if bestV < x then maxFrom x i (i + 1) xs
      else maxFrom bestV bestI (i + 1) xs

/-- `torch.max(probabilities, 1)` on one row: `(confidence, predicted)`. -/
def torchMax : List ℚ → Option (ℚ × ℕ)
  | [] => none
  | x :: xs => some (maxFrom x 0 1 xs)

/-- `predict`: `(predicted_class, confidence)` — the class list indexed
at the argmax, and the maximum probability. -/
def predictTriple (classes : List String) (probs : List ℚ) :
    Option (String × ℚ) :=
  (torchMax probs).map fun vi => (classes.getD vi.2 "", vi.1)

/-- The sort key of `all_probs.sort(key=lambda x: x["probability"],
reverse=True)`: descending probability. -/
def probGE (a b : String × ℚ) : Prop := b.2 ≤ a.2

instance : DecidableRel probGE := fun a b =>
  inferInstanceAs (Decidable (b.2 ≤ a.2))

instance : IsTotal (String × ℚ) probGE := ⟨fun a b => le_total b.2 a.2⟩

instance : IsTrans (String × ℚ) probGE :=
  ⟨fun _ _ _ h1 h2 => le_trans h2 h1⟩

/-- The `all_probabilities` list of the response: class/probability pairs
sorted by descending probability. -/
def allProbsSorted (classes : List String) (probs : List ℚ) :
    List (String × ℚ) :=
  List.insertionSort probGE (classes.zip probs)

theorem maxFrom_ge (xs : List ℚ) :
    ∀ bestV bestI i, bestV ≤ (maxFrom bestV bestI i xs).1 ∧
      ∀ x ∈ xs, x ≤ (maxFrom bestV bestI i xs).1 := by
  induction xs with
  | nil => intro bestV bestI i; exact ⟨le_refl _, by simp⟩
  | cons x xs ih =>
      intro bestV bestI i
      by_cases h : bestV < x
      · simp only [maxFrom, if_pos h]
        obtain ⟨h1, h2⟩ := ih x i (i + 1)
        refine ⟨le_of_lt (lt_of_lt_of_le h h1), ?_⟩
        intro y hy
        rcases List.mem_cons.mp hy with rfl | hy
        · exact h1
        · exact h2 y hy
      · simp only [maxFrom, if_neg h]
        obtain ⟨h1, h2⟩ := ih bestV bestI (i + 1)
        refine ⟨h1, ?_⟩
        intro y hy
        rcases List.mem_cons.mp hy with rfl | hy
        · exact le_trans (le_of_not_lt h) h1
        · exact h2 y hy

theorem maxFrom_result (xs : List ℚ) :
    ∀ bestV bestI i, maxFrom bestV bestI i xs = (bestV, bestI) ∨
      ∃ k, k < xs.length ∧
        maxFrom bestV bestI i xs = (xs.getD k 0, i + k) := by
  induction xs with
  | nil => intro bestV bestI i; exact Or.inl rfl
  | cons x xs ih =>
      intro bestV bestI i
      by_cases h : bestV < x
      · simp only [maxFrom, if_pos h]
        rcases ih x i (i + 1) with heq | ⟨k, hk, heq⟩
        · right
          exact ⟨0, by simp, by simpa using heq⟩
        · right
          refine ⟨k + 1, by simp only [List.length_cons]; omega, ?_⟩
          rw [heq, List.getD_cons_succ]
          congr 1
          omega
      · simp only [maxFrom, if_neg h]
        rcases ih bestV bestI (i + 1) with heq | ⟨k, hk, heq⟩
        · exact Or.inl heq
        · right
          refine ⟨k + 1, by simp only [List.length_cons]; omega, ?_⟩
          rw [heq, List.getD_cons_succ]
          congr 1
          omega

theorem zip_fst_unique {β : Type} (l1 : List String) (l2 : List β)
    (h : l1.Nodup) :
    ∀ a b b2, (a, b) ∈ l1.zip l2 → (a, b2) ∈ l1.zip l2 → b = b2 := by
  induction l1 generalizing l2 with
  | nil => intro a b b2 h1; simp at h1
  | cons x xs ih =>
      cases l2 with
      | nil => intro a b b2 h1; simp at h1
      | cons y ys =>
          intro a b b2 h1 h2
          simp only [List.zip_cons_cons, List.mem_cons] at h1 h2
          rcases h1 with h1 | h1 <;> rcases h2 with h2 | h2
          · simp only [Prod.mk.injEq] at h1 h2
            rw [h1.2, h2.2]
          · exfalso
            simp only [Prod.mk.injEq] at h1
            have hax := (List.of_mem_zip h2).1
            rw [h1.1] at hax
            exact (List.nodup_cons.mp h).1 hax
          · exfalso
            simp only [Prod.mk.injEq] at h2
            have hax := (List.of_mem_zip h1).1
            rw [h2.1] at hax
            exact (List.nodup_cons.mp h).1 hax
          · exact ih ys (List.nodup_cons.mp h).2 a b b2 h1 h2

theorem getD_mem_zip {β : Type} (l1 : List String) :
    ∀ (l2 : List β) (i : ℕ) (d1 : String) (d2 : β),
      i < l1.length → i < l2.length →
      (l1.getD i d1, l2.getD i d2) ∈ l1.zip l2 := by
  induction l1 with
  | nil => intro l2 i d1 d2 h1; simp at h1
  | cons x xs ih =>
      intro l2 i d1 d2 h1 h2
      cases l2 with
      | nil => simp at h2
      | cons y ys =>
          cases i with
          | zero => simp [List.zip_cons_cons]
          | succ n =>
              simp only [List.getD_cons_succ, List.zip_cons_cons,
                List.mem_cons]
              right
              exact ih ys n d1 d2 (by simp only [List.length_cons] at h1; omega)
                (by simp only [List.length_cons] at h2; omega)

/-- C10: for every successful `/predict` response, the reported
confidence is the probability of the reported predicted class, it is the
maximum over all per-class probabilities, and the `all_probabilities`
list is sorted in descending order of probability (and is a permutation
of the class/probability pairs containing the predicted entry). -/
theorem C10_predict_confidence_and_sorted (probs : List ℚ)
    (classes : List String) (hne : probs ≠ [])
    (hlen : classes.length = probs.length) (hnd : classes.Nodup) :
    ∃ conf idx,
      torchMax probs = some (conf, idx) ∧
      predictTriple classes probs = some (classes.getD idx "", conf) ∧
      idx < probs.length ∧
      probs.getD idx 0 = conf ∧
      (∀ p ∈ probs, p ≤ conf) ∧
      (∀ pr ∈ classes.zip probs, pr.1 = classes.getD idx "" →
        pr.2 = conf) ∧
      (allProbsSorted classes probs).Pairwise probGE ∧
      (classes.getD idx "", conf) ∈ allProbsSorted classes probs := by
  match probs, hne with
  | x :: xs, _ =>
  have hidx : (maxFrom x 0 1 xs).2 < (x :: xs).length := by
    rcases maxFrom_result xs x 0 1 with heq | ⟨k, hk, heq⟩ <;> rw [heq] <;>
      simp only [List.length_cons] <;> omega
  have hget : (x :: xs).getD (maxFrom x 0 1 xs).2 0 = (maxFrom x 0 1 xs).1 := by
    rcases maxFrom_result xs x 0 1 with heq | ⟨k, hk, heq⟩ <;> rw [heq]
    · rfl
    · show (x :: xs).getD (1 + k) 0 = xs.getD k 0
      rw [show 1 + k = k + 1 from by omega, List.getD_cons_succ]
  have hidxc : (maxFrom x 0 1 xs).2 < classes.length := by
    rw [hlen]; exact hidx
  have hmemz : (classes.getD (maxFrom x 0 1 xs).2 "",
      (maxFrom x 0 1 xs).1) ∈ classes.zip (x :: xs) := by
    rw [← hget]
    exact getD_mem_zip classes (x :: xs) (maxFrom x 0 1 xs).2 "" 0 hidxc hidx
  refine ⟨(maxFrom x 0 1 xs).1, (maxFrom x 0 1 xs).2, rfl,
    by simp [predictTriple, torchMax], hidx, hget, ?_, ?_, ?_, ?_⟩
  · obtain ⟨h1, h2⟩ := maxFrom_ge xs x 0 1
    intro p hp
    rcases List.mem_cons.mp hp with rfl | hp
    · exact h1
    · exact h2 p hp
  · intro pr hpr hcls
    obtain ⟨p1, p2⟩ := pr
    simp only at hcls
    subst hcls
    exact zip_fst_unique classes (x :: xs) hnd _ p2 (maxFrom x 0 1 xs).1
      hpr hmemz
  · exact List.sorted_insertionSort probGE (classes.zip (x :: xs))
  · exact (List.perm_insertionSort probGE (classes.zip (x :: xs))).mem_iff.mpr
      hmemz

/-- Witness for C10 at probabilities `[1, 7, 2]` over three classes: the
predicted class is `dog` with confidence 7 and the response list is
sorted descending. -/
theorem C10_witness :
    predictTriple ["cat", "dog", "frog"] [(1 : ℚ), 7, 2] =
      some ("dog", 7) ∧
    (allProbsSorted ["cat", "dog", "frog"] [(1 : ℚ), 7, 2]).Pairwise
      probGE := by
  obtain ⟨conf, idx, h1, h2, hidx, hget, hmax, huniq, hsort, hmem⟩ :=
    C10_predict_confidence_and_sorted [(1 : ℚ), 7, 2] ["cat", "dog", "frog"]
      (by decide) rfl (by decide)
  have hcomp : torchMax [(1 : ℚ), 7, 2] = some (7, 1) := rfl
  obtain ⟨rfl, rfl⟩ := Prod.mk.inj (Option.some.inj (h1.symm.trans hcomp))
  exact ⟨h2, hsort⟩

end ImageClassifier
